import Mathlib

/-!
Verification development for the research-report pipeline in `app.py`.

The Python source is shallowly embedded: pure helper functions become Lean
functions over `String` and `List Char`; the `json` module is modelled by an
executable recursive-descent parser following the JSON grammar accepted by
`json.loads` (including the non-standard `NaN`, `Infinity`, `-Infinity`
constants the Python module accepts); pydantic model construction becomes an
explicit validator returning `Except`; the network-bound stages (language
model, search provider) are passed in as explicit function parameters, and
exceptions become `Except.error` carrying the exception message.
-/

set_option maxHeartbeats 1000000

namespace AIReport

/-- JSON values as produced by `json.loads`.  Numeric tokens are kept verbatim
(the pipeline never computes with them), which also covers the `NaN` and
`Infinity` constants the Python module accepts. -/
inductive Json where
  | null : Json
  | bool : Bool → Json
  | num : String → Json
  | str : String → Json
  | arr : List Json → Json
  | obj : List (String × Json) → Json

/-- Whitespace skipped by the Python json scanner: space, tab, newline, CR. -/
def isJsonWs (c : Char) : Bool :=
  c = ' ' || c = '\t' || c = '\n' || c = '\r'

def skipWs (cs : List Char) : List Char := cs.dropWhile isJsonWs

def hexVal (c : Char) : Option Nat :=
  if '0' ≤ c ∧ c ≤ '9' then some (c.toNat - '0'.toNat)
  else if 'a' ≤ c ∧ c ≤ 'f' then some (c.toNat - 'a'.toNat + 10)
  else if 'A' ≤ c ∧ c ≤ 'F' then some (c.toNat - 'A'.toNat + 10)
  else none

def simpleEsc (c : Char) : Option Char :=
  if c = '"' then some '"'
  else if c = '\\' then some '\\'
  else if c = '/' then some '/'
  else if c = 'b' then some (Char.ofNat 8)
  else if c = 'f' then some (Char.ofNat 12)
  else if c = 'n' then some '\n'
  else if c = 'r' then some '\r'
  else if c = 't' then some '\t'
  else none

/-- Body of a JSON string after the opening quote; returns the decoded
characters and the remaining input after the closing quote.  A `\uXXXX`
escape denoting a surrogate decodes to the NUL placeholder (Lean characters
are Unicode scalar values); no claim depends on that corner. -/
def parseStrChars : List Char → Except String (List Char × List Char)
  | [] => .error "Unterminated string"
  | '"' :: rest => .ok ([], rest)
  | '\\' :: 'u' :: h1 :: h2 :: h3 :: h4 :: rest =>
      match hexVal h1, hexVal h2, hexVal h3, hexVal h4 with
      | some a, some b, some c, some d =>
          match parseStrChars rest with
          | .ok (s, r) => .ok (Char.ofNat (((a * 16 + b) * 16 + c) * 16 + d) :: s, r)
          | .error e => .error e
      | _, _, _, _ => .error "Invalid hex escape"
  | '\\' :: e :: rest =>
      match simpleEsc e with
      | some c =>
          match parseStrChars rest with
          | .ok (s, r) => .ok (c :: s, r)
          | .error msg => .error msg
      | none => if e = 'u' then .error "Invalid hex escape" else .error "Invalid escape"
  | '\\' :: [] => .error "Unterminated string"
  | c :: rest =>
      if c.toNat < 32 then .error "Invalid control character"
      else
        match parseStrChars rest with
        | .ok (s, r) => .ok (c :: s, r)
        | .error msg => .error msg

/-- Optional fractional part of a number token (regex group `(\.\d+)?`). -/
def parseFrac (cs : List Char) : List Char × List Char :=
  match cs with
  | '.' :: rest =>
      let ds := rest.takeWhile Char.isDigit
      if ds.isEmpty then ([], cs) else ('.' :: ds, rest.dropWhile Char.isDigit)
  | _ => ([], cs)

/-- Optional exponent part of a number token (regex group `([eE][-+]?\d+)?`). -/
def parseExp (cs : List Char) : List Char × List Char :=
  match cs with
  | e :: rest =>
      if e = 'e' || e = 'E' then
        match rest with
        | s :: rest2 =>
            if s = '+' || s = '-' then
              let ds := rest2.takeWhile Char.isDigit
              if ds.isEmpty then ([], cs) else (e :: s :: ds, rest2.dropWhile Char.isDigit)
            else
              let ds := rest.takeWhile Char.isDigit
              if ds.isEmpty then ([], cs) else (e :: ds, rest.dropWhile Char.isDigit)
        | [] => ([], cs)
      else ([], cs)
  | [] => ([], cs)

/-- Number token per the json module regex
`-?(0|[1-9]\d*)(\.\d+)?([eE][-+]?\d+)?`; returns the token and the rest. -/
def parseNumber (cs : List Char) : Option (String × List Char) :=
  let sr : List Char × List Char :=
    match cs with
    | '-' :: rest => (['-'], rest)
    | _ => ([], cs)
  match sr.2 with
  | '0' :: rest =>
      let f := parseFrac rest
      let e := parseExp f.2
      some (String.mk (sr.1 ++ '0' :: (f.1 ++ e.1)), e.2)
  | c :: rest =>
      if c.isDigit then
        let ds := rest.takeWhile Char.isDigit
        let r0 := rest.dropWhile Char.isDigit
        let f := parseFrac r0
        let e := parseExp f.2
        some (String.mk (sr.1 ++ c :: (ds ++ f.1 ++ e.1)), e.2)
      else none
  | [] => none

def stripPrefixChars : List Char → List Char → Option (List Char)
  | [], cs => some cs
  | l :: ls, c :: cs => if c = l then stripPrefixChars ls cs else none
  | _ :: _, [] => none

mutual

/-- One JSON value (the scanner of the Python json module); fuel bounds the
nesting depth and `length + 1` is always enough because every recursive call
consumes at least one character first. -/
def parseValue : Nat → List Char → Except String (Json × List Char)
  | 0, _ => .error "Expecting value"
  | Nat.succ fuel, cs =>
      match skipWs cs with
      | [] => .error "Expecting value"
      | '\x7b' :: rest =>
          match skipWs rest with
          | '\x7d' :: rest2 => .ok (Json.obj [], rest2)
          | _ =>
              match parseObjItems fuel rest with
              | .ok (kvs, r) => .ok (Json.obj kvs, r)
              | .error e => .error e
      | '[' :: rest =>
          match skipWs rest with
          | ']' :: rest2 => .ok (Json.arr [], rest2)
          | _ =>
              match parseArrItems fuel rest with
              | .ok (xs, r) => .ok (Json.arr xs, r)
              | .error e => .error e
      | '"' :: rest =>
          match parseStrChars rest with
          | .ok (s, r) => .ok (Json.str (String.mk s), r)
          | .error e => .error e
      | 't' :: rest =>
          match stripPrefixChars ['r', 'u', 'e'] rest with
          | some r => .ok (Json.bool true, r)
          | none => .error "Expecting value"
      | 'f' :: rest =>
          match stripPrefixChars ['a', 'l', 's', 'e'] rest with
          | some r => .ok (Json.bool false, r)
          | none => .error "Expecting value"
      | 'n' :: rest =>
          match stripPrefixChars ['u', 'l', 'l'] rest with
          | some r => .ok (Json.null, r)
          | none => .error "Expecting value"
      | 'N' :: rest =>
          match stripPrefixChars ['a', 'N'] rest with
          | some r => .ok (Json.num "NaN", r)
          | none => .error "Expecting value"
      | 'I' :: rest =>
          match stripPrefixChars ['n', 'f', 'i', 'n', 'i', 't', 'y'] rest with
          | some r => .ok (Json.num "Infinity", r)
          | none => .error "Expecting value"
      | cs2 =>
          match parseNumber cs2 with
          | some (tok, r) => .ok (Json.num tok, r)
          | none =>
              match cs2 with
              | '-' :: rest =>
                  match stripPrefixChars ['I', 'n', 'f', 'i', 'n', 'i', 't', 'y'] rest with
                  | some r => .ok (Json.num "-Infinity", r)
                  | none => .error "Expecting value"
              | _ => .error "Expecting value"

/-- Members of a nonempty JSON object, starting right after the opening
brace. -/
def parseObjItems : Nat → List Char → Except String (List (String × Json) × List Char)
  | 0, _ => .error "Expecting value"
  | Nat.succ fuel, cs =>
      match skipWs cs with
      | '"' :: rest =>
          match parseStrChars rest with
          | .error e => .error e
          | .ok (k, r1) =>
              match skipWs r1 with
              | ':' :: r2 =>
                  match parseValue fuel r2 with
                  | .error e => .error e
                  | .ok (v, r3) =>
                      match skipWs r3 with
                      | '\x7d' :: r4 => .ok ([(String.mk k, v)], r4)
                      | ',' :: r4 =>
                          match parseObjItems fuel r4 with
                          | .ok (kvs, r5) => .ok ((String.mk k, v) :: kvs, r5)
                          | .error e => .error e
                      | _ => .error "Expecting comma delimiter"
              | _ => .error "Expecting colon delimiter"
      | _ => .error "Expecting property name enclosed in double quotes"

/-- Elements of a nonempty JSON array, starting right after the opening
bracket. -/
def parseArrItems : Nat → List Char → Except String (List Json × List Char)
  | 0, _ => .error "Expecting value"
  | Nat.succ fuel, cs =>
      match parseValue fuel cs with
      | .error e => .error e
      | .ok (v, r1) =>
          match skipWs r1 with
          | ']' :: r2 => .ok ([v], r2)
          | ',' :: r2 =>
              match parseArrItems fuel r2 with
              | .ok (xs, r3) => .ok (v :: xs, r3)
              | .error e => .error e
          | _ => .error "Expecting comma delimiter"

end

/-- `json.loads`: parse one value, then require only trailing whitespace. -/
def json_loads (s : String) : Except String Json :=
  match parseValue (s.data.length + 1) s.data with
  | .error e => .error e
  | .ok (v, rest) => if skipWs rest = [] then .ok v else .error "Extra data"

/-- Index of the first character satisfying `p`, if any. -/
def firstIdx (p : Char → Bool) : List Char → Option Nat
  | [] => none
  | c :: cs => if p c then some 0 else (firstIdx p cs).map (· + 1)

/-- The span matched by `re.search(regexBracePattern, text, re.DOTALL)` for the
pattern brace-dot-star-brace: the leftmost match starts at the first opening
brace and the greedy `.*` extends it to the last closing brace of the whole
text; there is no match when no closing brace follows the first opening
brace. -/
def extract_span (cs : List Char) : Option (List Char) :=
  match firstIdx (fun c => c = '\x7b') cs, firstIdx (fun c => c = '\x7d') cs.reverse with
  | some i, some r =>
      let j := cs.length - 1 - r
      if i < j then some ((cs.drop i).take (j - i + 1)) else none
  | _, _ => none

/-- `extract_json` from `app.py`: locate the greedy brace span, then
`json.loads` it; the two failure branches raise `ValueError` with the messages
below (the `json.JSONDecodeError` branch formats the parse failure plus the
first 500 characters of the input). -/
def extract_json (text : String) : Except String Json :=
  match extract_span text.data with
  | none => .error "No JSON object found in text."
  | some span =>
      match json_loads (String.mk span) with
      | .ok v => .ok v
      | .error e =>
          .error ("Failed to parse JSON: " ++ e ++ "\nPreview: " ++ String.mk (text.data.take 500))

/-- Python `str.replace` for a single-character pattern: every occurrence of
`c` becomes `rep`, left to right. -/
def replaceChar (c : Char) (rep : List Char) : List Char → List Char
  | [] => []
  | x :: xs => if x = c then rep ++ replaceChar c rep xs else x :: replaceChar c rep xs

/-- The chained `str.replace` calls of `json_safe`, on character lists
(innermost replace applied first, as in the source). -/
def jsonSafeChars (l : List Char) : List Char :=
  replaceChar '\r' ['\\', 'r']
    (replaceChar '\n' ['\\', 'n']
      (replaceChar '"' ['\\', '"']
        (replaceChar '\\' ['\\', '\\'] l)))

/-- `json_safe` from `app.py`: chained `str.replace` calls escaping backslash,
double quote, newline and carriage return. -/
def json_safe (text : String) : String :=
  if text = "" then "" else String.mk (jsonSafeChars text.data)

/-- Per-character escape unit: what the replace chain emits for one input
character. -/
def escUnit (c : Char) : List Char :=
  if c = '\\' then ['\\', '\\']
  else if c = '"' then ['\\', '"']
  else if c = '\n' then ['\\', 'n']
  else if c = '\r' then ['\\', 'r']
  else [c]

/-! ## Configuration and data model (pydantic models of `app.py`) -/

def SERPAPI_KEY : String := "ENTER YOUR API KEY HERE"

def NUM_SEARCHES : Nat := 3

structure WebSearchItem where
  reason : String
  query : String
deriving DecidableEq

structure WebSearchPlan where
  searches : List WebSearchItem
deriving DecidableEq

structure ReportData where
  short_summary : String
  markdown_report : String
  follow_up_questions : List String
deriving DecidableEq

/-- One normalized search result (`title`, `url`, `snippet` record built in
`search_web`). -/
structure SearchResultRecord where
  title : String
  url : String
  snippet : String
deriving DecidableEq

/-- The dictionary `search_web` serializes and `perform_searches` collects. -/
structure SearchOutcome where
  query : String
  reason : String
  results : List SearchResultRecord
  summary : String
deriving DecidableEq

/-- One raw provider record: each of the three fields the code reads with
`dict.get` may be absent. -/
structure RawResult where
  title : Option String
  link : Option String
  snippet : Option String
deriving DecidableEq

/-! ## Schema validation (pydantic construction `WebSearchPlan(**data)`) -/

/-- Lookup in a parsed JSON object; a duplicated key keeps the last binding,
as in a Python dict built by `json.loads`. -/
def jLookup (kvs : List (String × Json)) (k : String) : Option Json :=
  match kvs with
  | [] => none
  | kv :: rest =>
      match jLookup rest k with
      | some v => some v
      | none => if kv.1 = k then some kv.2 else none

/-- pydantic validation of one `WebSearchItem`: both fields must be present
and be strings; nothing else is checked (no non-emptiness). -/
def validateWebSearchItem (j : Json) : Except String WebSearchItem :=
  match j with
  | Json.obj kvs =>
      match jLookup kvs "reason" with
      | none => .error "searches reason: Field required"
      | some (Json.str r) =>
          match jLookup kvs "query" with
          | none => .error "searches query: Field required"
          | some (Json.str q) => .ok { reason := r, query := q }
          | some _ => .error "searches query: Input should be a valid string"
      | some _ => .error "searches reason: Input should be a valid string"
  | _ => .error "searches: Input should be a valid dictionary"

def validateItems : List Json → Except String (List WebSearchItem)
  | [] => .ok []
  | x :: xs =>
      match validateWebSearchItem x with
      | .error e => .error e
      | .ok it =>
          match validateItems xs with
          | .ok its => .ok (it :: its)
          | .error e => .error e

/-- pydantic construction `WebSearchPlan(**data)`: `data` must be a mapping
whose `searches` member is a list of valid items; the list length is NOT
checked against `NUM_SEARCHES`. -/
def WebSearchPlan_validate (j : Json) : Except String WebSearchPlan :=
  match j with
  | Json.obj kvs =>
      match jLookup kvs "searches" with
      | none => .error "searches: Field required"
      | some (Json.arr xs) =>
          match validateItems xs with
          | .ok its => .ok { searches := its }
          | .error e => .error e
      | some _ => .error "searches: Input should be a valid list"
  | _ => .error "Input should be a valid dictionary"

/-- `plan_searches` on a given model response text: extract the JSON object
and build the pydantic model.  (The `except json.JSONDecodeError` clause in
the source is dead code because `extract_json` only raises `ValueError`.) -/
def plan_searches (response_text : String) : Except String WebSearchPlan :=
  match extract_json response_text with
  | .error e => .error e
  | .ok data => WebSearchPlan_validate data

/-! ## Search provider adapter (`search_web`) and search stage -/

structure SearchParams where
  q : String
  engine : String
  api_key : String
  num : Nat
deriving DecidableEq

/-- The `params` dictionary `search_web` sends to the provider. -/
def search_web_params (query : String) : SearchParams :=
  { q := query, engine := "google", api_key := SERPAPI_KEY, num := 5 }

/-- Field normalization applied to each organic result. -/
def normalize_result (r : RawResult) : SearchResultRecord :=
  { title := r.title.getD "No title"
    url := r.link.getD ""
    snippet := r.snippet.getD "" }

/-- `search_web` given the organic results the provider returned.  The
source first raises when `SERPAPI_KEY` is falsy; that branch is statically
unreachable because the key is the nonempty placeholder literal (see
`serpapi_key_nonempty` below), so the model returns the outcome directly.
The `json.dumps`/`json.loads` round trip between `search_web` and
`perform_searches` is the identity on this record and is elided. -/
def search_web (query reason : String) (organic : List RawResult) : SearchOutcome :=
  let results := organic.map normalize_result
  { query := query
    reason := reason
    results := results
    summary := "Top " ++ toString results.length ++ " search results for \x27" ++ query ++ "\x27" }

/-- `perform_searches`: one provider call per plan item, strictly in order.
The provider is modelled as a state-passing oracle so that sequencing is
observable: the call for item `i + 1` receives the state produced by the call
for item `i`. -/
def perform_searches {σ : Type} (provider : σ → String → String → List RawResult × σ) :
    σ → List WebSearchItem → List SearchOutcome × σ
  | s, [] => ([], s)
  | s, item :: rest =>
      let pr := provider s item.query item.reason
      let tail := perform_searches provider pr.2 rest
      (search_web item.query item.reason pr.1 :: tail.1, tail.2)

/-! ## Reference builder -/

/-- The loop body of `build_references`, returning the emitted
`(title, url)` pairs in order: a record is emitted when its pair was not seen
before and its url is nonempty; emitted pairs are added to `seen`. -/
def collectRefs (seen : List (String × String)) : List SearchResultRecord → List (String × String)
  | [] => []
  | r :: rest =>
      let key := (r.title, r.url)
      if key ∉ seen ∧ r.url ≠ "" then key :: collectRefs (key :: seen) rest
      else collectRefs seen rest

/-- Same loop on bare `(title, url)` pairs; `collectRefs` factors through it
(`collectRefs_eq_collectKeys`). -/
def collectKeys (seen : List (String × String)) : List (String × String) → List (String × String)
  | [] => []
  | k :: rest =>
      if k ∉ seen ∧ k.2 ≠ "" then k :: collectKeys (k :: seen) rest
      else collectKeys seen rest

/-- Order-explicit first-occurrence deduplication: keep the head, drop every
later equal element.  Statement-side specification used to express that the
reference builder keeps the first occurrence of each `(title, url)` pair in
iteration order. -/
def dedupFilter : List (String × String) → List (String × String)
  | [] => []
  | k :: rest => k :: dedupFilter (rest.filter (fun x => x ≠ k))
termination_by l => l.length
decreasing_by
  simp only [List.length_cons]
  exact Nat.lt_succ_of_le (List.length_filter_le _ _)

/-- Rendering of the emitted pairs: markdown list items numbered from `n`. -/
def renderRefs : Nat → List (String × String) → String
  | _, [] => ""
  | n, k :: rest => toString n ++ ". [" ++ k.1 ++ "](" ++ k.2 ++ ")\n" ++ renderRefs (n + 1) rest

/-- `build_references`: heading plus the numbered, deduplicated reference
lines, iterating outcomes in order and results within each outcome in
order (the nested `for` loops flatten to a join). -/
def build_references (search_results : List SearchOutcome) : String :=
  "## References\n\n" ++
    renderRefs 1 (collectRefs [] (search_results.map SearchOutcome.results).flatten)

/-! ## Report stage prompt construction (`write_report`) -/

def REPORT_WRITER_INSTRUCTION : String :=
  "You are a senior researcher tasked with writing a cohesive report for a research query. \nYou will be provided with the original query and search results from a research assistant.\n\nFirst, create an outline for the report that describes the structure and flow. \nThen, generate the full report based on that outline.\n\nRequirements:\n- The report must be in markdown format\n- It should be detailed and comprehensive (aim for 1000+ words)\n- Include proper sections with headers\n- Provide a short 2-3 sentence summary\n- Suggest 3-5 follow-up research questions\n\nReturn a JSON object with: \x7b\"short_summary\": \"...\", \"markdown_report\": \"...\", \"follow_up_questions\": [...]\x7d"

/-- The `results_summary` string built in `write_report`: every embedded
query, reason and url goes through `json_safe` first. -/
def write_report_results_summary (search_results : List SearchOutcome) : String :=
  String.intercalate "\n\n" (search_results.enum.map (fun p =>
    "Search " ++ toString (p.1 + 1) ++ ": " ++ json_safe p.2.query ++
      "\nReason: " ++ json_safe p.2.reason ++ "\nReferences:\n" ++
      String.intercalate "\n"
        (p.2.results.enum.map (fun q => toString (q.1 + 1) ++ ". " ++ json_safe q.2.url))))

/-- The full prompt `write_report` sends to the model; the original query is
also escaped with `json_safe`. -/
def report_input_text (query : String) (search_results : List SearchOutcome) : String :=
  REPORT_WRITER_INSTRUCTION ++ "\n\nOriginal Research Query: " ++ json_safe query ++
    "\n\nSearch Results:\n" ++ write_report_results_summary search_results ++
    "\n\nPlease write a comprehensive report in JSON format with short_summary, markdown_report, and follow_up_questions."

/-! ## Pipeline orchestrator (`run_research_pipeline`) -/

/-- The whitespace set of Python `str.isspace()` / `str.strip()`: the code
points U+0009..U+000D, U+001C..U+001F, U+0020, U+0085, U+00A0, U+1680,
U+2000..U+200A, U+2028, U+2029, U+202F, U+205F and U+3000. -/
def isPySpace (c : Char) : Bool :=
  decide ((0x09 ≤ c.toNat ∧ c.toNat ≤ 0x0d) ∨ (0x1c ≤ c.toNat ∧ c.toNat ≤ 0x1f) ∨
    c.toNat = 0x20 ∨ c.toNat = 0x85 ∨ c.toNat = 0xa0 ∨ c.toNat = 0x1680 ∨
    (0x2000 ≤ c.toNat ∧ c.toNat ≤ 0x200a) ∨ c.toNat = 0x2028 ∨ c.toNat = 0x2029 ∨
    c.toNat = 0x202f ∨ c.toNat = 0x205f ∨ c.toNat = 0x3000)

/-- Python `str.strip()`: remove leading and trailing whitespace characters
(the `isPySpace` set). -/
def pyStrip (s : String) : String :=
  String.mk (((s.data.dropWhile isPySpace).reverse.dropWhile isPySpace).reverse)

/-- Number of non-whitespace characters of a string (the quantity the claim
about input validation speaks of). -/
def nonWsCount (s : String) : Nat :=
  (s.data.filter (fun c => !isPySpace c)).length

def validation_message : String :=
  "❌ Please enter a valid research query (at least 3 characters)"

def errorMark : String := "❌ Error: "

/-- Formatting of the follow-up questions on success (1-indexed lines). -/
def format_follow_up (qs : List String) : String :=
  String.intercalate "\n" (qs.enum.map (fun p => toString (p.1 + 1) ++ ". " ++ p.2))

/-- The body of the `try` block after validation: Planner, then Search, then
Report; the surrounding `except Exception` turns the first raised error into
the single user-facing error triple. -/
def run_pipeline_stages (planner : String → Except String WebSearchPlan)
    (searcher : WebSearchPlan → Except String (List SearchOutcome))
    (writer : String → List SearchOutcome → Except String ReportData)
    (query : String) : String × String × String :=
  match planner query with
  | .error e => (errorMark ++ e, "", "")
  | .ok plan =>
      match searcher plan with
      | .error e => (errorMark ++ e, "", "")
      | .ok rs =>
          match writer query rs with
          | .error e => (errorMark ++ e, "", "")
          | .ok report =>
              (report.short_summary, report.markdown_report,
                format_follow_up report.follow_up_questions)

/-- `run_research_pipeline` with the three network-bound stages passed in as
explicit collaborators (each returning either its value or the message of the
exception it raised). -/
def run_research_pipeline (planner : String → Except String WebSearchPlan)
    (searcher : WebSearchPlan → Except String (List SearchOutcome))
    (writer : String → List SearchOutcome → Except String ReportData)
    (query : String) : String × String × String :=
  if query = "" ∨ (pyStrip query).length < 3 then (validation_message, "", "")
  else run_pipeline_stages planner searcher writer query

/-! ## Statement-side predicates used by the theorems -/

/-- Escaped output shape: a concatenation of escape sequences and characters
that need no escaping.  This is the formal reading of: the string contains no
unescaped backslash, double quote, newline or carriage return. -/
inductive EscapedChars : List Char → Prop
  | nil : EscapedChars []
  | plain (c : Char) (h1 : c ≠ '\\') (h2 : c ≠ '"') (h3 : c ≠ '\n') (h4 : c ≠ '\r')
      (rest : List Char) : EscapedChars rest → EscapedChars (c :: rest)
  | escBackslash (rest : List Char) : EscapedChars rest → EscapedChars ('\\' :: '\\' :: rest)
  | escQuote (rest : List Char) : EscapedChars rest → EscapedChars ('\\' :: '"' :: rest)
  | escN (rest : List Char) : EscapedChars rest → EscapedChars ('\\' :: 'n' :: rest)
  | escR (rest : List Char) : EscapedChars rest → EscapedChars ('\\' :: 'r' :: rest)

/-- Shape of a JSON value pydantic accepts as one `WebSearchItem`. -/
def ItemShape (j : Json) : Prop :=
  ∃ kvs r q, j = Json.obj kvs ∧
    jLookup kvs "reason" = some (Json.str r) ∧ jLookup kvs "query" = some (Json.str q)

/-- Shape of a JSON value pydantic accepts as a `WebSearchPlan`. -/
def PlanShape (j : Json) : Prop :=
  ∃ kvs xs, j = Json.obj kvs ∧ jLookup kvs "searches" = some (Json.arr xs) ∧
    ∀ x ∈ xs, ItemShape x

/-! ## Helper lemmas -/

theorem serpapi_key_nonempty : SERPAPI_KEY ≠ "" := by decide

theorem perform_searches_length {σ : Type} (provider : σ → String → String → List RawResult × σ)
    (items : List WebSearchItem) : ∀ s : σ,
    (perform_searches provider s items).1.length = items.length := by
  induction items with
  | nil => intro s; rfl
  | cons item rest ih =>
      intro s
      simp only [perform_searches, List.length_cons]
      exact congrArg Nat.succ (ih _)

theorem perform_searches_get {σ : Type} (provider : σ → String → String → List RawResult × σ)
    (items : List WebSearchItem) : ∀ (s : σ) (i : Nat)
    (h1 : i < (perform_searches provider s items).1.length) (h2 : i < items.length),
    ((perform_searches provider s items).1.get ⟨i, h1⟩).query = (items.get ⟨i, h2⟩).query ∧
      ((perform_searches provider s items).1.get ⟨i, h1⟩).reason = (items.get ⟨i, h2⟩).reason := by
  induction items with
  | nil => intro s i h1 h2; exact absurd h2 (Nat.not_lt_zero i)
  | cons item rest ih =>
      intro s i h1 h2
      cases i with
      | zero => exact ⟨rfl, rfl⟩
      | succ n =>
          have h1n : n < (perform_searches provider
              (provider s item.query item.reason).2 rest).1.length := by
            have := h1
            simp only [perform_searches, List.length_cons] at this
            exact Nat.lt_of_succ_lt_succ this
          have h2n : n < rest.length := Nat.lt_of_succ_lt_succ h2
          exact ih _ n h1n h2n

theorem perform_searches_trace (f : String → String → List RawResult)
    (items : List WebSearchItem) : ∀ s0 : List (String × String),
    (perform_searches (fun s q r => (f q r, s ++ [(q, r)])) s0 items).2 =
      s0 ++ items.map (fun it => (it.query, it.reason)) := by
  induction items with
  | nil => intro s0; simp [perform_searches]
  | cons item rest ih =>
      intro s0
      simp only [perform_searches, List.map_cons]
      rw [ih (s0 ++ [(item.query, item.reason)])]
      simp

theorem firstIdx_lt_length (p : Char → Bool) :
    ∀ (l : List Char) (i : Nat), firstIdx p l = some i → i < l.length := by
  intro l
  induction l with
  | nil => intro i h; simp [firstIdx] at h
  | cons c cs ih =>
      intro i h
      by_cases hpc : p c
      · simp only [firstIdx, if_pos hpc, Option.some.injEq] at h
        simp [List.length_cons]; omega
      · simp only [firstIdx, if_neg hpc, Option.map_eq_some'] at h
        obtain ⟨a, ha, hai⟩ := h
        have := ih a ha
        simp [List.length_cons]; omega

theorem firstIdx_getElem (p : Char → Bool) :
    ∀ (l : List Char) (i : Nat), firstIdx p l = some i →
      ∃ c, l[i]? = some c ∧ p c = true := by
  intro l
  induction l with
  | nil => intro i h; simp [firstIdx] at h
  | cons c cs ih =>
      intro i h
      by_cases hpc : p c
      · simp only [firstIdx, if_pos hpc, Option.some.injEq] at h
        exact ⟨c, by rw [← h]; exact List.getElem?_cons_zero, hpc⟩
      · simp only [firstIdx, if_neg hpc, Option.map_eq_some'] at h
        obtain ⟨a, ha, hai⟩ := h
        obtain ⟨d, hd, hpd⟩ := ih a ha
        refine ⟨d, ?_, hpd⟩
        rw [← hai, List.getElem?_cons_succ]
        exact hd

theorem firstIdx_min (p : Char → Bool) :
    ∀ (l : List Char) (i : Nat), firstIdx p l = some i →
      ∀ k, k < i → ∀ c, l[k]? = some c → p c = false := by
  intro l
  induction l with
  | nil => intro i h; simp [firstIdx] at h
  | cons c cs ih =>
      intro i h k hk d hd
      by_cases hpc : p c
      · simp only [firstIdx, if_pos hpc, Option.some.injEq] at h
        omega
      · simp only [firstIdx, if_neg hpc, Option.map_eq_some'] at h
        obtain ⟨a, ha, hai⟩ := h
        cases k with
        | zero =>
            rw [List.getElem?_cons_zero] at hd
            injection hd with hcd
            subst hcd
            cases hb : p c with
            | false => rfl
            | true => exact absurd hb hpc
        | succ k0 =>
            rw [List.getElem?_cons_succ] at hd
            exact ih a ha k0 (by omega) d hd

theorem firstIdx_exists_le (p : Char → Bool) :
    ∀ (l : List Char) (i : Nat) (c : Char), l[i]? = some c → p c = true →
      ∃ j, firstIdx p l = some j ∧ j ≤ i := by
  intro l
  induction l with
  | nil => intro i c h; simp at h
  | cons d cs ih =>
      intro i c h hpc
      by_cases hpd : p d
      · exact ⟨0, by simp [firstIdx, hpd], Nat.zero_le i⟩
      · cases i with
        | zero =>
            rw [List.getElem?_cons_zero] at h
            cases h
            exact absurd hpc hpd
        | succ i0 =>
            rw [List.getElem?_cons_succ] at h
            obtain ⟨j0, hj0, hle⟩ := ih i0 c h hpc
            refine ⟨j0 + 1, ?_, by omega⟩
            simp [firstIdx, hpd, hj0]

theorem firstIdx_append (p : Char → Bool) (l1 l2 : List Char)
    (hall : ∀ c ∈ l1, p c = false) :
    firstIdx p (l1 ++ l2) = (firstIdx p l2).map (· + l1.length) := by
  induction l1 with
  | nil =>
      simp only [List.nil_append, List.length_nil]
      cases firstIdx p l2 <;> simp
  | cons c l1 ih =>
      have hc : p c = false := hall c (List.mem_cons_self c l1)
      have ih2 := ih (fun d hd => hall d (List.mem_cons_of_mem c hd))
      rw [List.cons_append]
      have hstep : firstIdx p (c :: (l1 ++ l2)) = (firstIdx p (l1 ++ l2)).map (· + 1) := by
        simp [firstIdx, hc]
      rw [hstep, ih2]
      cases firstIdx p l2 <;> simp [Nat.add_assoc]

/-- The regex span of a text containing an opening brace with a later closing
brace: `extract_span` succeeds and produces exactly the substring from the
first opening brace to the last closing brace — the text decomposes as
`pre ++ span ++ post` where `pre` holds no opening brace and `post` no
closing brace, and the span itself is brace-delimited. -/
theorem extract_span_spec (cs : List Char) (i j : Nat) (hij : i < j)
    (hi : cs[i]? = some '\x7b') (hj : cs[j]? = some '\x7d') :
    ∃ pre span post,
      extract_span cs = some span ∧
      cs = pre ++ span ++ post ∧
      '\x7b' ∉ pre ∧ '\x7d' ∉ post ∧
      span.head? = some '\x7b' ∧ span.getLast? = some '\x7d' := by
  have hilen : i < cs.length := (List.getElem?_eq_some.mp hi).1
  have hjlen : j < cs.length := (List.getElem?_eq_some.mp hj).1
  obtain ⟨i0, hfi, hi0⟩ := firstIdx_exists_le (fun c => c = '\x7b') cs i '\x7b' hi (by simp)
  have hrev : cs.reverse[cs.length - 1 - j]? = some '\x7d' := by
    rw [List.getElem?_reverse (by omega)]
    have he : cs.length - 1 - (cs.length - 1 - j) = j := by omega
    rw [he]; exact hj
  obtain ⟨r, hfr, hrle⟩ :=
    firstIdx_exists_le (fun c => c = '\x7d') cs.reverse (cs.length - 1 - j) '\x7d' hrev (by simp)
  have hrlen : r < cs.length := by
    have := firstIdx_lt_length _ _ _ hfr
    rwa [List.length_reverse] at this
  have hij0 : i0 < cs.length - 1 - r := by omega
  have hspan : extract_span cs =
      some ((cs.drop i0).take (cs.length - 1 - r - i0 + 1)) := by
    unfold extract_span
    rw [hfi, hfr]
    simp only [if_pos hij0]
  refine ⟨cs.take i0, (cs.drop i0).take (cs.length - 1 - r - i0 + 1),
    cs.drop (cs.length - 1 - r + 1), hspan, ?_, ?_, ?_, ?_, ?_⟩
  · have hto : i0 + (cs.length - 1 - r - i0 + 1) = cs.length - 1 - r + 1 := by omega
    calc cs = cs.take (cs.length - 1 - r + 1) ++ cs.drop (cs.length - 1 - r + 1) :=
          (List.take_append_drop _ _).symm
      _ = (cs.take i0 ++ (cs.drop i0).take (cs.length - 1 - r - i0 + 1)) ++
            cs.drop (cs.length - 1 - r + 1) := by
          rw [← hto, List.take_add]
  · intro hmem
    obtain ⟨k, hk⟩ := List.mem_iff_getElem?.mp hmem
    rw [List.getElem?_take] at hk
    by_cases hki : k < i0
    · rw [if_pos hki] at hk
      have := firstIdx_min _ _ _ hfi k hki _ hk
      simp at this
    · rw [if_neg hki] at hk
      exact Option.noConfusion hk
  · intro hmem
    obtain ⟨k, hk⟩ := List.mem_iff_getElem?.mp hmem
    rw [List.getElem?_drop] at hk
    have hmlen : cs.length - 1 - r + 1 + k < cs.length := (List.getElem?_eq_some.mp hk).1
    have hridx : cs.length - 1 - (cs.length - 1 - r + 1 + k) < r := by omega
    have hrevk : cs.reverse[cs.length - 1 - (cs.length - 1 - r + 1 + k)]? = some '\x7d' := by
      rw [List.getElem?_reverse (by omega)]
      have he : cs.length - 1 - (cs.length - 1 - (cs.length - 1 - r + 1 + k)) =
          cs.length - 1 - r + 1 + k := by omega
      rw [he]; exact hk
    have := firstIdx_min _ _ _ hfr _ hridx _ hrevk
    simp at this
  · rw [List.head?_eq_getElem?, List.getElem?_take, if_pos (by omega : 0 < cs.length - 1 - r - i0 + 1),
      List.getElem?_drop]
    obtain ⟨c, hc, hpc⟩ := firstIdx_getElem _ _ _ hfi
    simp only [decide_eq_true_eq] at hpc
    subst hpc
    simpa using hc
  · have hlen : ((cs.drop i0).take (cs.length - 1 - r - i0 + 1)).length =
        cs.length - 1 - r - i0 + 1 := by
      rw [List.length_take, List.length_drop]; omega
    rw [List.getLast?_eq_getElem?, hlen, List.getElem?_take, if_pos (by omega),
      List.getElem?_drop]
    have hidx : i0 + (cs.length - 1 - r - i0 + 1 - 1) = cs.length - 1 - r := by omega
    rw [hidx]
    obtain ⟨c, hc, hpc⟩ := firstIdx_getElem _ _ _ hfr
    simp only [decide_eq_true_eq] at hpc
    subst hpc
    rw [List.getElem?_reverse hrlen] at hc
    exact hc

/-- A successful span extraction witnesses an opening brace with a later
closing brace. -/
theorem extract_span_some_pair (cs : List Char) (span : List Char)
    (h : extract_span cs = some span) :
    ∃ (i j : Nat), i < j ∧ cs[i]? = some '\x7b' ∧ cs[j]? = some '\x7d' := by
  unfold extract_span at h
  cases hfi : firstIdx (fun c => c = '\x7b') cs with
  | none => rw [hfi] at h; simp at h
  | some i =>
      cases hfr : firstIdx (fun c => c = '\x7d') cs.reverse with
      | none => rw [hfi, hfr] at h; simp at h
      | some r =>
          rw [hfi, hfr] at h
          by_cases hij : i < cs.length - 1 - r
          · have hrlen : r < cs.length := by
              have := firstIdx_lt_length _ _ _ hfr
              rwa [List.length_reverse] at this
            refine ⟨i, cs.length - 1 - r, hij, ?_, ?_⟩
            · obtain ⟨c, hc, hpc⟩ := firstIdx_getElem _ _ _ hfi
              simp only [decide_eq_true_eq] at hpc
              subst hpc
              exact hc
            · obtain ⟨c, hc, hpc⟩ := firstIdx_getElem _ _ _ hfr
              simp only [decide_eq_true_eq] at hpc
              subst hpc
              rw [List.getElem?_reverse hrlen] at hc
              exact hc
          · simp only [if_neg hij] at h
            exact Option.noConfusion h

/-! ## Claim theorems -/

theorem collectRefs_eq_collectKeys (recs : List SearchResultRecord) :
    ∀ seen, collectRefs seen recs = collectKeys seen (recs.map (fun r => (r.title, r.url))) := by
  induction recs with
  | nil => intro seen; rfl
  | cons r rest ih =>
      intro seen
      by_cases h : ((r.title, r.url) ∉ seen ∧ r.url ≠ "")
      · simp only [collectRefs, collectKeys, List.map_cons, if_pos h, ih]
      · simp only [collectRefs, collectKeys, List.map_cons, if_neg h, ih]

theorem collectKeys_nodup_and_disjoint (l : List (String × String)) :
    ∀ seen, (collectKeys seen l).Nodup ∧ ∀ k ∈ collectKeys seen l, k ∉ seen := by
  induction l with
  | nil => intro seen; exact ⟨List.nodup_nil, by simp [collectKeys]⟩
  | cons a rest ih =>
      intro seen
      by_cases h : (a ∉ seen ∧ a.2 ≠ "")
      · simp only [collectKeys, if_pos h]
        obtain ⟨hn, hd⟩ := ih (a :: seen)
        refine ⟨List.nodup_cons.mpr ⟨fun hmem => (hd a hmem) (List.mem_cons_self a seen), hn⟩, ?_⟩
        intro k hk hkseen
        rcases List.mem_cons.mp hk with rfl | hk2
        · exact h.1 hkseen
        · exact (hd k hk2) (List.mem_cons_of_mem a hkseen)
      · simp only [collectKeys, if_neg h]
        exact ih seen

theorem mem_collectKeys (l : List (String × String)) :
    ∀ seen k, k ∈ collectKeys seen l ↔ (k ∈ l ∧ k.2 ≠ "" ∧ k ∉ seen) := by
  induction l with
  | nil => intro seen k; simp [collectKeys]
  | cons a rest ih =>
      intro seen k
      by_cases h : (a ∉ seen ∧ a.2 ≠ "")
      · simp only [collectKeys, if_pos h, List.mem_cons]
        constructor
        · rintro (rfl | hk)
          · exact ⟨Or.inl rfl, h.2, h.1⟩
          · obtain ⟨h1, h2, h3⟩ := (ih (a :: seen) k).mp hk
            exact ⟨Or.inr h1, h2, fun hs => h3 (List.mem_cons_of_mem a hs)⟩
        · rintro ⟨hor, hne, hns⟩
          rcases hor with rfl | hk
          · exact Or.inl rfl
          · by_cases hka : k = a
            · exact Or.inl hka
            · refine Or.inr ((ih (a :: seen) k).mpr ⟨hk, hne, ?_⟩)
              intro hmem
              rcases List.mem_cons.mp hmem with h1 | h1
              · exact hka h1
              · exact hns h1
      · simp only [collectKeys, if_neg h, List.mem_cons]
        rw [ih seen k]
        constructor
        · rintro ⟨hk, hne, hns⟩
          exact ⟨Or.inr hk, hne, hns⟩
        · rintro ⟨hor, hne, hns⟩
          rcases hor with rfl | hk
          · exact absurd ⟨hns, hne⟩ h
          · exact ⟨hk, hne, hns⟩

theorem collectKeys_eq_dedupFilter (l : List (String × String)) :
    ∀ seen, collectKeys seen l = dedupFilter (l.filter (fun x => x.2 ≠ "" ∧ x ∉ seen)) := by
  induction l with
  | nil => intro seen; simp [collectKeys, dedupFilter]
  | cons k rest ih =>
      intro seen
      by_cases h : (k ∉ seen ∧ k.2 ≠ "")
      · have hp : decide (k.2 ≠ "" ∧ k ∉ seen) = true := by
          simp [h.1, h.2]

        rw [List.filter_cons, if_pos hp]
        conv_rhs => rw [dedupFilter]
        simp only [collectKeys, if_pos h]
        congr 1
        rw [ih (k :: seen), List.filter_filter]
        congr 1
        apply List.filter_congr
        intro x hx
        by_cases h1 : x = k <;> by_cases h2 : x.2 = "" <;> by_cases h3 : x ∈ seen <;>
          simp [h1, h2, h3, List.mem_cons]
      · have hp : decide (k.2 ≠ "" ∧ k ∉ seen) = false := by
          rcases not_and_or.mp h with h1 | h2
          · simp [not_not.mp h1]
          · simp [not_not.mp h2]
        rw [List.filter_cons, if_neg (by simp [hp])]
        simp only [collectKeys, if_neg h]
        exact ih seen

theorem collectKeys_of_all_empty (l : List (String × String)) :
    ∀ seen, (∀ k ∈ l, k.2 = "") → collectKeys seen l = [] := by
  induction l with
  | nil => intro seen _; rfl
  | cons a rest ih =>
      intro seen hall
      have ha : a.2 = "" := hall a (List.mem_cons_self a rest)
      have hcond : ¬(a ∉ seen ∧ a.2 ≠ "") := fun hc => hc.2 ha
      simp only [collectKeys, if_neg hcond]
      exact ih seen (fun k hk => hall k (List.mem_cons_of_mem a hk))

theorem filter_eq_length_one_of_nodup {α : Type} [DecidableEq α] (l : List α) (a : α)
    (d : l.Nodup) (h : a ∈ l) : (l.filter (fun x => x = a)).length = 1 := by
  induction l with
  | nil => cases h
  | cons b rest ih =>
      have d2 := List.nodup_cons.mp d
      by_cases hba : b = a
      · subst hba
        have hnr : rest.filter (fun x => x = b) = [] := by
          apply List.filter_eq_nil_iff.mpr
          intro x hx
          simp only [decide_eq_true_eq]
          intro hxb
          exact d2.1 (hxb ▸ hx)
        simp [List.filter_cons_of_pos, hnr]
      · have hmem : a ∈ rest := by
          rcases List.mem_cons.mp h with rfl | hm
          · exact absurd rfl hba
          · exact hm
        have hrec := ih d2.2 hmem
        simpa [List.filter_cons_of_neg, hba] using hrec

theorem renderRefs_zipWith (l : List (String × String)) :
    ∀ n, renderRefs n l =
      (List.zipWith (fun m p => toString m ++ ". [" ++ p.1 ++ "](" ++ p.2 ++ ")\n")
        (List.range' n l.length) l).foldr (· ++ ·) "" := by
  induction l with
  | nil => intro n; rfl
  | cons k rest ih =>
      intro n
      simp only [renderRefs, List.length_cons, List.range'_succ, List.zipWith_cons_cons,
        List.foldr_cons]
      rw [ih (n + 1)]

/-- C7: the search provider adapter requests at most 5 organic results
(`num = 5` in the request parameters) and normalizes each organic record:
absent title becomes the literal string No title, absent snippet becomes the
empty string, absent url becomes the empty string (present fields pass
through unchanged). -/
theorem C7_search_adapter_normalization (query : String) (r : RawResult) :
    (search_web_params query).num = 5 ∧
    (r.title = none → (normalize_result r).title = "No title") ∧
    (∀ t, r.title = some t → (normalize_result r).title = t) ∧
    (r.snippet = none → (normalize_result r).snippet = "") ∧
    (∀ s, r.snippet = some s → (normalize_result r).snippet = s) ∧
    (r.link = none → (normalize_result r).url = "") ∧
    (∀ u, r.link = some u → (normalize_result r).url = u) := by
  refine ⟨rfl, ?_, ?_, ?_, ?_, ?_, ?_⟩
  · intro h; simp [normalize_result, h]
  · intro t h; simp [normalize_result, h]
  · intro h; simp [normalize_result, h]
  · intro s h; simp [normalize_result, h]
  · intro h; simp [normalize_result, h]
  · intro u h; simp [normalize_result, h]

theorem C7_witness :
    (search_web_params "q").num = 5 ∧
    (normalize_result ⟨none, none, none⟩).title = "No title" ∧
    (normalize_result ⟨none, none, none⟩).snippet = "" ∧
    (normalize_result ⟨none, none, none⟩).url = "" ∧
    (normalize_result ⟨some "T", some "U", some "S"⟩).title = "T" :=
  ⟨(C7_search_adapter_normalization "q" ⟨none, none, none⟩).1,
   (C7_search_adapter_normalization "q" ⟨none, none, none⟩).2.1 rfl,
   (C7_search_adapter_normalization "q" ⟨none, none, none⟩).2.2.2.1 rfl,
   (C7_search_adapter_normalization "q" ⟨none, none, none⟩).2.2.2.2.2.1 rfl,
   (C7_search_adapter_normalization "q" ⟨some "T", some "U", some "S"⟩).2.2.1 "T" rfl⟩

/-- C8: the search stage returns one outcome per plan item, in plan order,
the i-th outcome carrying the query and reason of the i-th item; and the
provider calls happen strictly sequentially, each call receiving the state
left by the previous one, so an instrumented provider records exactly the
plan queries in plan order. -/
theorem C8_search_stage_order (plan : WebSearchPlan) :
    (∀ (σ : Type) (provider : σ → String → String → List RawResult × σ) (s : σ),
      (perform_searches provider s plan.searches).1.length = plan.searches.length ∧
      ∀ (i : Nat) (h1 : i < (perform_searches provider s plan.searches).1.length)
        (h2 : i < plan.searches.length),
        ((perform_searches provider s plan.searches).1.get ⟨i, h1⟩).query =
            (plan.searches.get ⟨i, h2⟩).query ∧
          ((perform_searches provider s plan.searches).1.get ⟨i, h1⟩).reason =
            (plan.searches.get ⟨i, h2⟩).reason) ∧
    (∀ (f : String → String → List RawResult) (s0 : List (String × String)),
      (perform_searches (fun s q r => (f q r, s ++ [(q, r)])) s0 plan.searches).2 =
        s0 ++ plan.searches.map (fun it => (it.query, it.reason))) := by
  constructor
  · intro σ provider s
    exact ⟨perform_searches_length provider plan.searches s,
      fun i h1 h2 => perform_searches_get provider plan.searches s i h1 h2⟩
  · intro f s0
    exact perform_searches_trace f plan.searches s0

theorem C8_witness :
    ((perform_searches (σ := Unit) (fun s _ _ => ([], s)) ()
        (WebSearchPlan.mk [⟨"r1", "q1"⟩, ⟨"r2", "q2"⟩]).searches).1.length =
      (WebSearchPlan.mk [⟨"r1", "q1"⟩, ⟨"r2", "q2"⟩]).searches.length) ∧
    ((perform_searches (σ := Unit) (fun s _ _ => ([], s)) ()
        (WebSearchPlan.mk [⟨"r1", "q1"⟩, ⟨"r2", "q2"⟩]).searches).1.get
        ⟨0, by decide⟩).query = "q1" ∧
    ((perform_searches (fun (s : List (String × String)) q r => (([] : List RawResult), s ++ [(q, r)])) []
        (WebSearchPlan.mk [⟨"r1", "q1"⟩, ⟨"r2", "q2"⟩]).searches).2 =
      [("q1", "r1"), ("q2", "r2")]) := by
  refine ⟨(C8_search_stage_order _).1 Unit _ () |>.1, ?_, ?_⟩
  · exact ((C8_search_stage_order (WebSearchPlan.mk [⟨"r1", "q1"⟩, ⟨"r2", "q2"⟩])).1
      Unit (fun s _ _ => ([], s)) () |>.2 0 (by decide) (by decide)).1
  · exact (C8_search_stage_order (WebSearchPlan.mk [⟨"r1", "q1"⟩, ⟨"r2", "q2"⟩])).2
      (fun _ _ => []) []

/-- C6: whichever stage fails first, the orchestrator converts the raised
error once at its boundary into the triple whose first component is the
error-marked message and whose report and follow-up components are empty
strings, so no partial search results are surfaced. -/
theorem C6_orchestrator_error_boundary (planner : String → Except String WebSearchPlan)
    (searcher : WebSearchPlan → Except String (List SearchOutcome))
    (writer : String → List SearchOutcome → Except String ReportData)
    (query : String) (hq : ¬(query = "" ∨ (pyStrip query).length < 3)) :
    (∀ e, planner query = .error e →
      run_research_pipeline planner searcher writer query = (errorMark ++ e, "", "")) ∧
    (∀ plan e, planner query = .ok plan → searcher plan = .error e →
      run_research_pipeline planner searcher writer query = (errorMark ++ e, "", "")) ∧
    (∀ plan rs e, planner query = .ok plan → searcher plan = .ok rs →
      writer query rs = .error e →
      run_research_pipeline planner searcher writer query = (errorMark ++ e, "", "")) := by
  refine ⟨?_, ?_, ?_⟩
  · intro e he
    simp [run_research_pipeline, if_neg hq, run_pipeline_stages, he]
  · intro plan e hp hs
    simp [run_research_pipeline, if_neg hq, run_pipeline_stages, hp, hs]
  · intro plan rs e hp hs hw
    simp [run_research_pipeline, if_neg hq, run_pipeline_stages, hp, hs, hw]

theorem C6_witness :
    run_research_pipeline (fun _ => .error "boom")
        (fun _ => .ok []) (fun _ _ => .ok ⟨"s", "m", []⟩) "abc" =
      (errorMark ++ "boom", "", "") ∧
    run_research_pipeline (fun _ => .ok ⟨[]⟩)
        (fun _ => .error "searchfail") (fun _ _ => .ok ⟨"s", "m", []⟩) "abc" =
      (errorMark ++ "searchfail", "", "") ∧
    run_research_pipeline (fun _ => .ok ⟨[]⟩)
        (fun _ => .ok []) (fun _ _ => .error "writefail") "abc" =
      (errorMark ++ "writefail", "", "") :=
  ⟨(C6_orchestrator_error_boundary _ _ _ "abc" (by decide)).1 "boom" rfl,
   (C6_orchestrator_error_boundary _ _ _ "abc" (by decide)).2.1 ⟨[]⟩ "searchfail" rfl rfl,
   (C6_orchestrator_error_boundary _ _ _ "abc" (by decide)).2.2 ⟨[]⟩ [] "writefail" rfl rfl rfl⟩

/-- C4 counterexample: the claim says the pipeline rejects exactly the
queries with fewer than 3 non-whitespace characters.  The query consisting
of letter a, space, letter b has only 2 non-whitespace characters, yet the
code computes `len("a b".strip()) = 3` and proceeds to Planning: the planner
IS invoked (its error surfaces) and the fixed validation message is not
returned. -/
theorem C4_counterexample :
    nonWsCount "a b" = 2 ∧
    run_research_pipeline (fun _ => .error "PLANNER")
        (fun _ => .error "S") (fun _ _ => .error "W") "a b" =
      (errorMark ++ "PLANNER", "", "") ∧
    (errorMark ++ "PLANNER", "", "") ≠ ((validation_message, "", "") : String × String × String) := by
  refine ⟨by decide, rfl, by decide⟩

/-- C4 (amended): the pipeline rejects the query with the fixed validation
message — without invoking the Planner, Search or Report stage — if and only
if the query is empty or has fewer than 3 characters after stripping leading
and trailing whitespace; otherwise it proceeds to the staged pipeline. -/
theorem C4_validation_amended (planner : String → Except String WebSearchPlan)
    (searcher : WebSearchPlan → Except String (List SearchOutcome))
    (writer : String → List SearchOutcome → Except String ReportData)
    (query : String) :
    ((query = "" ∨ (pyStrip query).length < 3) →
      run_research_pipeline planner searcher writer query = (validation_message, "", "") ∧
      ∀ p2 s2 w2, run_research_pipeline planner searcher writer query =
        run_research_pipeline p2 s2 w2 query) ∧
    (¬(query = "" ∨ (pyStrip query).length < 3) →
      run_research_pipeline planner searcher writer query =
        run_pipeline_stages planner searcher writer query) := by
  constructor
  · intro hcond
    constructor
    · simp [run_research_pipeline, if_pos hcond]
    · intro p2 s2 w2
      simp [run_research_pipeline, if_pos hcond]
  · intro hcond
    simp [run_research_pipeline, if_neg hcond]

theorem jsonSafeChars_cons (c : Char) (l : List Char) :
    jsonSafeChars (c :: l) = escUnit c ++ jsonSafeChars l := by
  by_cases h1 : c = '\\'
  · subst h1; rfl
  · by_cases h2 : c = '"'
    · subst h2; rfl
    · by_cases h3 : c = '\n'
      · subst h3; rfl
      · by_cases h4 : c = '\r'
        · subst h4; rfl
        · simp [jsonSafeChars, replaceChar, escUnit, h1, h2, h3, h4]

theorem escaped_jsonSafeChars (l : List Char) : EscapedChars (jsonSafeChars l) := by
  induction l with
  | nil => exact EscapedChars.nil
  | cons c l ih =>
      rw [jsonSafeChars_cons]
      by_cases h1 : c = '\\'
      · subst h1; exact EscapedChars.escBackslash _ ih
      · by_cases h2 : c = '"'
        · subst h2
          have : escUnit '"' = ['\\', '"'] := by simp [escUnit]
          rw [this]; exact EscapedChars.escQuote _ ih
        · by_cases h3 : c = '\n'
          · subst h3
            have : escUnit '\n' = ['\\', 'n'] := by simp [escUnit]
            rw [this]; exact EscapedChars.escN _ ih
          · by_cases h4 : c = '\r'
            · subst h4
              have : escUnit '\r' = ['\\', 'r'] := by simp [escUnit]
              rw [this]; exact EscapedChars.escR _ ih
            · have : escUnit c = [c] := by simp [escUnit, h1, h2, h3, h4]
              rw [this]
              exact EscapedChars.plain c h1 h2 h3 h4 _ ih

theorem escaped_json_safe (s : String) : EscapedChars (json_safe s).data := by
  unfold json_safe
  split
  · exact EscapedChars.nil
  · exact escaped_jsonSafeChars s.data

/-- C9: every piece of user- or model-derived text that `write_report` embeds
into the report prompt — the original query and, for every outcome, its
query, its reason and each of its result urls — goes through `json_safe`
(see `report_input_text` and `write_report_results_summary`), and the escaped
output decomposes into escape sequences and harmless characters: it contains
no unescaped backslash, double quote, newline or carriage return. -/
theorem C9_report_prompt_escaping (query : String) (search_results : List SearchOutcome) :
    EscapedChars (json_safe query).data ∧
    ∀ r ∈ search_results,
      EscapedChars (json_safe r.query).data ∧
      EscapedChars (json_safe r.reason).data ∧
      ∀ res ∈ r.results, EscapedChars (json_safe res.url).data := by
  refine ⟨escaped_json_safe query, ?_⟩
  intro r _
  exact ⟨escaped_json_safe r.query, escaped_json_safe r.reason,
    fun res _ => escaped_json_safe res.url⟩

theorem C9_witness :
    EscapedChars (json_safe "a\\b\"c\nd\re").data ∧
    EscapedChars (json_safe "plain query").data :=
  ⟨(C9_report_prompt_escaping "a\\b\"c\nd\re"
      [⟨"plain query", "r", [], "s"⟩]).1,
   ((C9_report_prompt_escaping "x" [⟨"plain query", "r", [], "s"⟩]).2
      ⟨"plain query", "r", [], "s"⟩ (by simp)).1⟩

theorem C4_witness :
    run_research_pipeline (fun _ => .error "P") (fun _ => .error "S")
        (fun _ _ => .error "W") "ab" = (validation_message, "", "") ∧
    run_research_pipeline (fun _ => .error "P") (fun _ => .error "S")
        (fun _ _ => .error "W") "\xa0ab" = (validation_message, "", "") ∧
    run_research_pipeline (fun _ => .error "P") (fun _ => .error "S")
        (fun _ _ => .error "W") "abc" =
      run_pipeline_stages (fun _ => .error "P") (fun _ => .error "S")
        (fun _ _ => .error "W") "abc" :=
  ⟨((C4_validation_amended _ _ _ "ab").1 (Or.inr (by decide))).1,
   ((C4_validation_amended _ _ _ "\xa0ab").1 (Or.inr (by decide))).1,
   (C4_validation_amended _ _ _ "abc").2 (by decide)⟩

/-- C5: the reference builder emits at most one entry per distinct
`(title, url)` pair (the emitted pair list has no duplicates, and a pair that
occurs with nonempty url is emitted exactly once), every emitted entry has a
nonempty url (records with empty url are skipped), the emitted list is
exactly the first-occurrence deduplication of the url-nonempty pairs in
iteration order (first occurrence wins, later duplicates silently dropped),
and exchanging the positions of two records carrying the same `(title, url)`
pair leaves the output — hence the set of emitted entries — unchanged. -/
theorem C5_reference_dedup :
    (∀ rs : List SearchOutcome,
      (collectRefs [] ((rs.map SearchOutcome.results).flatten)).Nodup ∧
      (∀ p ∈ collectRefs [] ((rs.map SearchOutcome.results).flatten), p.2 ≠ "") ∧
      (∀ t u, (∃ r ∈ (rs.map SearchOutcome.results).flatten, r.title = t ∧ r.url = u) →
        u ≠ "" →
        ((collectRefs [] ((rs.map SearchOutcome.results).flatten)).filter
          (fun p => p = (t, u))).length = 1) ∧
      collectRefs [] ((rs.map SearchOutcome.results).flatten) =
        dedupFilter ((((rs.map SearchOutcome.results).flatten).map
          (fun r => (r.title, r.url))).filter (fun x => x.2 ≠ ""))) ∧
    (∀ (rs1 rs2 : List SearchOutcome) (l1 l2 l3 : List SearchResultRecord)
        (a b : SearchResultRecord),
      (rs1.map SearchOutcome.results).flatten = l1 ++ a :: (l2 ++ b :: l3) →
      (rs2.map SearchOutcome.results).flatten = l1 ++ b :: (l2 ++ a :: l3) →
      a.title = b.title → a.url = b.url →
      build_references rs1 = build_references rs2) := by
  constructor
  · intro rs
    rw [collectRefs_eq_collectKeys]
    refine ⟨(collectKeys_nodup_and_disjoint _ []).1, ?_, ?_, ?_⟩
    · intro p hp
      exact ((mem_collectKeys _ [] p).mp hp).2.1
    · intro t u ⟨r, hr, ht, hu⟩ hune
      have hmem : (t, u) ∈ collectKeys []
          (((rs.map SearchOutcome.results).flatten).map (fun r => (r.title, r.url))) := by
        refine (mem_collectKeys _ [] (t, u)).mpr ⟨?_, hune, by simp⟩
        exact List.mem_map.mpr ⟨r, hr, by rw [ht, hu]⟩
      exact filter_eq_length_one_of_nodup _ (t, u)
        (collectKeys_nodup_and_disjoint _ []).1 hmem
    · rw [collectKeys_eq_dedupFilter]
      congr 1
      apply List.filter_congr
      intro x hx
      simp
  · intro rs1 rs2 l1 l2 l3 a b h1 h2 hta hua
    unfold build_references
    rw [collectRefs_eq_collectKeys, collectRefs_eq_collectKeys, h1, h2]
    have : (l1 ++ a :: (l2 ++ b :: l3)).map (fun r => (r.title, r.url)) =
        (l1 ++ b :: (l2 ++ a :: l3)).map (fun r => (r.title, r.url)) := by
      simp only [List.map_append, List.map_cons]
      rw [hta, hua]
    rw [this]

theorem C5_witness :
    ((collectRefs []
        ((([⟨"q", "r", [⟨"T", "U", "s1"⟩, ⟨"T", "U", "s2"⟩], "s"⟩] :
          List SearchOutcome).map SearchOutcome.results).flatten)).filter
      (fun p => p = ("T", "U"))).length = 1 ∧
    build_references [⟨"q", "r", [⟨"T", "U", "s1"⟩, ⟨"T", "U", "s2"⟩], "s"⟩] =
      build_references [⟨"q", "r", [⟨"T", "U", "s2"⟩, ⟨"T", "U", "s1"⟩], "s"⟩] :=
  ⟨(C5_reference_dedup.1 [⟨"q", "r", [⟨"T", "U", "s1"⟩, ⟨"T", "U", "s2"⟩], "s"⟩]).2.2.1
      "T" "U" ⟨⟨"T", "U", "s1"⟩, by simp, rfl, rfl⟩ (by simp),
   C5_reference_dedup.2 [⟨"q", "r", [⟨"T", "U", "s1"⟩, ⟨"T", "U", "s2"⟩], "s"⟩]
      [⟨"q", "r", [⟨"T", "U", "s2"⟩, ⟨"T", "U", "s1"⟩], "s"⟩]
      [] [] [] ⟨"T", "U", "s1"⟩ ⟨"T", "U", "s2"⟩ rfl rfl rfl rfl⟩

/-- C10: the reference builder output always begins with the References
heading, the emitted entries are numbered contiguously 1..k with no gaps or
repeats (the rendered body is exactly the zip of `range' 1 k` with the k
emitted pairs), and when every record has an empty url — in particular on
empty input — the output is the bare heading. -/
theorem C10_references_numbering (rs : List SearchOutcome) :
    (∃ t, build_references rs = "## References\n\n" ++ t) ∧
    build_references rs = "## References\n\n" ++
      (List.zipWith (fun m p => toString m ++ ". [" ++ p.1 ++ "](" ++ p.2 ++ ")\n")
        (List.range' 1 (collectRefs [] ((rs.map SearchOutcome.results).flatten)).length)
        (collectRefs [] ((rs.map SearchOutcome.results).flatten))).foldr (· ++ ·) "" ∧
    ((∀ r ∈ (rs.map SearchOutcome.results).flatten, r.url = "") →
      build_references rs = "## References\n\n") := by
  refine ⟨⟨renderRefs 1 (collectRefs [] ((rs.map SearchOutcome.results).flatten)), rfl⟩, ?_, ?_⟩
  · unfold build_references
    rw [renderRefs_zipWith]
  · intro hall
    unfold build_references
    rw [collectRefs_eq_collectKeys, collectKeys_of_all_empty]
    · rfl
    · intro k hk
      obtain ⟨r, hr, rfl⟩ := List.mem_map.mp hk
      exact hall r hr

theorem C10_witness :
    build_references ([⟨"q", "r", [⟨"T", "", "s1"⟩], "s"⟩] : List SearchOutcome) =
      "## References\n\n" :=
  (C10_references_numbering [⟨"q", "r", [⟨"T", "", "s1"⟩], "s"⟩]).2.2 (by simp)

theorem validateItem_ok_iff (x : Json) :
    (∃ it, validateWebSearchItem x = .ok it) ↔ ItemShape x := by
  constructor
  · rintro ⟨it, h⟩
    cases x with
    | obj kvs =>
        cases hr : jLookup kvs "reason" with
        | none => simp [validateWebSearchItem, hr] at h
        | some vr =>
            cases vr with
            | str r =>
                cases hq : jLookup kvs "query" with
                | none => simp [validateWebSearchItem, hr, hq] at h
                | some vq =>
                    cases vq with
                    | str q => exact ⟨kvs, r, q, rfl, hr, hq⟩
                    | null => simp [validateWebSearchItem, hr, hq] at h
                    | bool b => simp [validateWebSearchItem, hr, hq] at h
                    | num s => simp [validateWebSearchItem, hr, hq] at h
                    | arr xs => simp [validateWebSearchItem, hr, hq] at h
                    | obj kvs2 => simp [validateWebSearchItem, hr, hq] at h
            | null => simp [validateWebSearchItem, hr] at h
            | bool b => simp [validateWebSearchItem, hr] at h
            | num s => simp [validateWebSearchItem, hr] at h
            | arr xs => simp [validateWebSearchItem, hr] at h
            | obj kvs2 => simp [validateWebSearchItem, hr] at h
    | null => simp [validateWebSearchItem] at h
    | bool b => simp [validateWebSearchItem] at h
    | num s => simp [validateWebSearchItem] at h
    | str s => simp [validateWebSearchItem] at h
    | arr xs => simp [validateWebSearchItem] at h
  · rintro ⟨kvs, r, q, rfl, hr, hq⟩
    exact ⟨⟨r, q⟩, by simp [validateWebSearchItem, hr, hq]⟩

theorem validateItems_ok_iff (xs : List Json) :
    (∃ its, validateItems xs = .ok its) ↔ ∀ x ∈ xs, ItemShape x := by
  induction xs with
  | nil => exact ⟨fun _ => by simp, fun _ => ⟨[], rfl⟩⟩
  | cons x xs ih =>
      constructor
      · rintro ⟨its, h⟩
        cases hit : validateWebSearchItem x with
        | error e => simp [validateItems, hit] at h
        | ok it2 =>
            cases hits : validateItems xs with
            | error e => simp [validateItems, hit, hits] at h
            | ok its2 =>
                intro y hy
                rcases List.mem_cons.mp hy with rfl | hy2
                · exact (validateItem_ok_iff y).mp ⟨it2, hit⟩
                · exact (ih.mp ⟨its2, hits⟩) y hy2
      · intro hall
        obtain ⟨it, hit⟩ := (validateItem_ok_iff x).mpr (hall x (List.mem_cons_self x xs))
        obtain ⟨its, hits⟩ := ih.mpr (fun y hy => hall y (List.mem_cons_of_mem x hy))
        exact ⟨it :: its, by simp [validateItems, hit, hits]⟩

/-- C3 counterexample: the claim says schema validation accepts exactly the
mappings holding a list of exactly `NUM_SEARCHES` items with non-empty
`reason` and `query`.  The mapping whose searches list holds a single item
with both fields empty is accepted by the code (pydantic checks field
presence and type only), although its length is 1 ≠ `NUM_SEARCHES` and both
strings are empty — so the claimed invariant does not hold for plans handed
to later stages either. -/
theorem C3_counterexample :
    WebSearchPlan_validate (Json.obj [("searches",
        Json.arr [Json.obj [("reason", Json.str ""), ("query", Json.str "")]])]) =
      .ok (WebSearchPlan.mk [⟨"", ""⟩]) ∧
    (WebSearchPlan.mk [⟨"", ""⟩]).searches.length ≠ NUM_SEARCHES ∧
    ∃ it ∈ (WebSearchPlan.mk [⟨"", ""⟩]).searches, it.query = "" ∧ it.reason = "" :=
  ⟨rfl, by decide, ⟨⟨"", ""⟩, by simp, rfl, rfl⟩⟩

/-- C3 (amended): schema validation accepts exactly those mappings holding a
`searches` list whose items each carry a string `reason` and a string
`query` field — of any list length, the strings possibly empty — and rejects
with a schema error any mapping in which an item is missing either field (or
a field is not a string, or `searches` is missing or not a list).  Neither
the `NUM_SEARCHES` count nor non-emptiness is enforced. -/
theorem C3_schema_validation_amended (j : Json) :
    (∃ p, WebSearchPlan_validate j = .ok p) ↔ PlanShape j := by
  constructor
  · rintro ⟨p, h⟩
    cases j with
    | obj kvs =>
        cases hs : jLookup kvs "searches" with
        | none => simp [WebSearchPlan_validate, hs] at h
        | some vs =>
            cases vs with
            | arr xs =>
                cases hits : validateItems xs with
                | error e => simp [WebSearchPlan_validate, hs, hits] at h
                | ok its =>
                    exact ⟨kvs, xs, rfl, hs, (validateItems_ok_iff xs).mp ⟨its, hits⟩⟩
            | null => simp [WebSearchPlan_validate, hs] at h
            | bool b => simp [WebSearchPlan_validate, hs] at h
            | num s => simp [WebSearchPlan_validate, hs] at h
            | str s => simp [WebSearchPlan_validate, hs] at h
            | obj kvs2 => simp [WebSearchPlan_validate, hs] at h
    | null => simp [WebSearchPlan_validate] at h
    | bool b => simp [WebSearchPlan_validate] at h
    | num s => simp [WebSearchPlan_validate] at h
    | str s => simp [WebSearchPlan_validate] at h
    | arr xs => simp [WebSearchPlan_validate] at h
  · rintro ⟨kvs, xs, rfl, hs, hall⟩
    obtain ⟨its, hits⟩ := (validateItems_ok_iff xs).mpr hall
    exact ⟨⟨its⟩, by simp [WebSearchPlan_validate, hs, hits]⟩

theorem C3_witness :
    (∃ p, WebSearchPlan_validate (Json.obj [("searches", Json.arr [])]) = .ok p) ∧
    ¬PlanShape (Json.obj [("searches",
        Json.arr [Json.obj [("reason", Json.str "x")]])]) :=
  ⟨(C3_schema_validation_amended _).mpr ⟨[("searches", Json.arr [])], [], rfl, rfl, by simp⟩,
   fun hshape => by
    obtain ⟨p, hp⟩ := (C3_schema_validation_amended _).mpr hshape
    exact absurd hp (by simp [WebSearchPlan_validate, jLookup, validateItems, validateWebSearchItem])⟩

/-- C1: on any text containing an opening brace with a later closing brace,
`extract_json` selects exactly the greedy span from the first opening brace
to the last closing brace (the text splits as `pre ++ span ++ post` with no
opening brace before the span and no closing brace after it) and returns the
result of json-parsing that span; in particular, on a text that is one
well-formed JSON object surrounded by brace-free prose it returns exactly
that object's parsed value. -/
theorem C1_extractor_greedy_span (text : String) :
    ((∃ (i j : Nat), i < j ∧ text.data[i]? = some '\x7b' ∧ text.data[j]? = some '\x7d') →
      ∃ pre span post,
        extract_span text.data = some span ∧
        text.data = pre ++ span ++ post ∧
        '\x7b' ∉ pre ∧ '\x7d' ∉ post ∧
        span.head? = some '\x7b' ∧ span.getLast? = some '\x7d' ∧
        (∀ v, json_loads (String.mk span) = .ok v → extract_json text = .ok v) ∧
        (∀ e, json_loads (String.mk span) = .error e →
          extract_json text = .error ("Failed to parse JSON: " ++ e ++ "\nPreview: " ++
            String.mk (text.data.take 500)))) ∧
    (∀ (p1 obj p2 : List Char) (v : Json),
      text.data = p1 ++ obj ++ p2 →
      '\x7b' ∉ p1 → '\x7d' ∉ p1 → '\x7b' ∉ p2 → '\x7d' ∉ p2 →
      obj.head? = some '\x7b' → obj.getLast? = some '\x7d' →
      json_loads (String.mk obj) = .ok v →
      extract_json text = .ok v) := by
  constructor
  · rintro ⟨i, j, hij, hi, hj⟩
    obtain ⟨pre, span, post, hspan, hdec, hpre, hpost, hhead, hlast⟩ :=
      extract_span_spec text.data i j hij hi hj
    refine ⟨pre, span, post, hspan, hdec, hpre, hpost, hhead, hlast, ?_, ?_⟩
    · intro v hv
      simp [extract_json, hspan, hv]
    · intro e he
      simp [extract_json, hspan, he]
  · intro p1 obj p2 v htext hp1o hp1c hp2o hp2c hhead hlast hload
    obtain ⟨c0, obj2, rfl⟩ : ∃ c0 obj2, obj = c0 :: obj2 := by
      cases obj with
      | nil => simp at hhead
      | cons a b => exact ⟨a, b, rfl⟩
    have hc0 : c0 = '\x7b' := by
      simp only [List.head?_cons, Option.some.injEq] at hhead
      exact hhead
    subst hc0
    have hobj2 : obj2 ≠ [] := by
      intro h0
      subst h0
      exact absurd hlast (by decide)
    have hobj2len : 1 ≤ obj2.length := by
      cases obj2 with
      | nil => exact absurd rfl hobj2
      | cons _ _ => simp
    have hfi : firstIdx (fun c => c = '\x7b') text.data = some p1.length := by
      rw [htext, List.append_assoc]
      rw [firstIdx_append (fun c => c = '\x7b') p1 (('\x7b' :: obj2) ++ p2)
        (fun c hc => by
          simp only [decide_eq_false_iff_not]
          exact fun h => hp1o (h ▸ hc))]
      simp [List.cons_append, firstIdx]
    obtain ⟨restR, hrobj⟩ : ∃ restR, ('\x7b' :: obj2).reverse = '\x7d' :: restR := by
      have h1 : ('\x7b' :: obj2).reverse.head? = some '\x7d' := by
        rw [List.head?_reverse]
        exact hlast
      cases hr : ('\x7b' :: obj2).reverse with
      | nil => rw [hr] at h1; simp at h1
      | cons d restR =>
          rw [hr] at h1
          simp only [List.head?_cons, Option.some.injEq] at h1
          exact ⟨restR, by rw [h1]⟩
    have hfr : firstIdx (fun c => c = '\x7d') text.data.reverse = some p2.length := by
      have hrev2 : text.data.reverse = p2.reverse ++ ('\x7d' :: (restR ++ p1.reverse)) := by
        rw [htext, List.reverse_append, List.reverse_append, hrobj]
        simp [List.cons_append, List.append_assoc]
      rw [hrev2]
      rw [firstIdx_append (fun c => c = '\x7d') p2.reverse ('\x7d' :: (restR ++ p1.reverse))
        (fun c hc => by
          simp only [decide_eq_false_iff_not]
          exact fun h => hp2c (h ▸ (List.mem_reverse.mp hc)))]
      simp [firstIdx, List.length_reverse]
    have hlen : text.data.length = p1.length + (obj2.length + 1) + p2.length := by
      rw [htext]
      simp [List.length_append, List.length_cons]
      omega
    have hcond : p1.length < text.data.length - 1 - p2.length := by omega
    have hspaneq : extract_span text.data = some ('\x7b' :: obj2) := by
      unfold extract_span
      rw [hfi, hfr]
      simp only [if_pos hcond]
      congr 1
      have htake : text.data.length - 1 - p2.length - p1.length + 1 = obj2.length + 1 := by
        omega
      rw [htake, htext, List.append_assoc, List.drop_left]
      have hlc : obj2.length + 1 = ('\x7b' :: obj2).length := by simp
      rw [hlc, List.take_left]
    simp [extract_json, hspaneq, hload]

theorem C1_witness :
    (∃ pre span post,
      extract_span ("x\x7b1\x7dy" : String).data = some span ∧
      ("x\x7b1\x7dy" : String).data = pre ++ span ++ post ∧
      '\x7b' ∉ pre ∧ '\x7d' ∉ post ∧
      span.head? = some '\x7b' ∧ span.getLast? = some '\x7d' ∧
      (∀ v, json_loads (String.mk span) = .ok v → extract_json "x\x7b1\x7dy" = .ok v) ∧
      (∀ e, json_loads (String.mk span) = .error e →
        extract_json "x\x7b1\x7dy" = .error ("Failed to parse JSON: " ++ e ++ "\nPreview: " ++
          String.mk (("x\x7b1\x7dy" : String).data.take 500)))) ∧
    extract_json "a\x7b\x7db" = .ok (Json.obj []) :=
  ⟨(C1_extractor_greedy_span "x\x7b1\x7dy").1 ⟨1, 3, by decide, by decide, by decide⟩,
   (C1_extractor_greedy_span "a\x7b\x7db").2 ['a'] ['\x7b', '\x7d'] ['b'] (Json.obj [])
     rfl (by decide) (by decide) (by decide) (by decide) rfl rfl rfl⟩

/-- C2: the extractor fails in exactly two ways — on a text with no opening
brace followed by a later closing brace it raises the fixed extraction error,
and on a text whose greedy span is not valid JSON it raises a parse error
whose message carries the parse-failure reason plus the first 500 characters
of the original input; every run ends in success or one of those two errors
(the embedding is a total function, so there are no other effects). -/
theorem C2_extractor_failure_modes (text : String) :
    ((¬∃ (i j : Nat), i < j ∧ text.data[i]? = some '\x7b' ∧ text.data[j]? = some '\x7d') →
      extract_json text = .error "No JSON object found in text.") ∧
    (∀ span e, extract_span text.data = some span →
      json_loads (String.mk span) = .error e →
      extract_json text = .error ("Failed to parse JSON: " ++ e ++ "\nPreview: " ++
        String.mk (text.data.take 500))) ∧
    ((∃ v, extract_json text = .ok v) ∨
      extract_json text = .error "No JSON object found in text." ∨
      (∃ e, extract_json text = .error ("Failed to parse JSON: " ++ e ++ "\nPreview: " ++
        String.mk (text.data.take 500)))) := by
  refine ⟨?_, ?_, ?_⟩
  · intro hno
    cases hsp : extract_span text.data with
    | none => simp [extract_json, hsp]
    | some span => exact absurd (extract_span_some_pair _ _ hsp) hno
  · intro span e hsp he
    simp [extract_json, hsp, he]
  · cases hsp : extract_span text.data with
    | none => exact Or.inr (Or.inl (by simp [extract_json, hsp]))
    | some span =>
        cases hl : json_loads (String.mk span) with
        | ok v => exact Or.inl ⟨v, by simp [extract_json, hsp, hl]⟩
        | error e => exact Or.inr (Or.inr ⟨e, by simp [extract_json, hsp, hl]⟩)

theorem C2_witness :
    extract_json "" = .error "No JSON object found in text." ∧
    extract_json "a\x7bx\x7db" = .error ("Failed to parse JSON: " ++
      "Expecting property name enclosed in double quotes" ++ "\nPreview: " ++
      String.mk (("a\x7bx\x7db" : String).data.take 500)) :=
  ⟨(C2_extractor_failure_modes "").1 (by
      rintro ⟨i, j, hij, hi, hj⟩
      have hnil : ("" : String).data = [] := rfl
      rw [hnil] at hi
      simp at hi),
   (C2_extractor_failure_modes "a\x7bx\x7db").2.1 ['\x7b', 'x', '\x7d']
     "Expecting property name enclosed in double quotes" rfl rfl⟩

end AIReport
